import Mathlib

/-!
Verification of the weekly Accounts-Receivable metrics engine of the
`ar-dashboard` repository.  The repository's `src/` tree carries only the
presentation pages (dashboard, analytics, DSO, upload, aging, collections,
efficiency); the Parser/Validator, Weekly Record Store, Metrics Engine and
Historical Aggregator they call live in API routes that are not part of the
source tree, so those components are modelled here from the specification,
while display-layer facts are embedded from the pages themselves.
-/

set_option maxHeartbeats 1000000

namespace ArDash

/-! ## Calendar dates

The Week column of an upload parses as month/day/4-digit-year.  Weeks are
stored as rata-die day numbers so that "the week exactly 7 days prior" is
plain integer arithmetic. -/

/-- Gregorian leap-year test. -/
def isLeapYear (y : Nat) : Bool :=
  (y % 4 == 0 && y % 100 != 0) || y % 400 == 0

/-- Days of the year strictly before the first day of month `m`. -/
def daysBeforeMonth (leap : Bool) (m : Nat) : Nat :=
  let base :=
    match m with
    | 1 => 0 | 2 => 31 | 3 => 59 | 4 => 90 | 5 => 120 | 6 => 151
    | 7 => 181 | 8 => 212 | 9 => 243 | 10 => 273 | 11 => 304 | _ => 334
  if leap && m ≥ 3 then base + 1 else base

/-- Number of days in month `m` of year `y`. -/
def daysInMonth (y m : Nat) : Nat :=
  match m with
  | 2 => if isLeapYear y then 29 else 28
  | 4 => 30 | 6 => 30 | 9 => 30 | 11 => 30
  | _ => 31

/-- Rata-die day number of the Gregorian date `y-m-d` (day 1 is 0001-01-01). -/
def rataDie (y m d : Nat) : Int :=
  ((365 * (y - 1) + (y - 1) / 4 - (y - 1) / 100 + (y - 1) / 400
      + daysBeforeMonth (isLeapYear y) m + d : Nat) : Int)


/-! ## Cells and tolerant numeric parsing

A CSV cell is its character list (`String.data`); all cell-level functions
recurse structurally so that concrete runs of the parser are computable by
the kernel. -/

/-- A raw CSV cell: the character list of its text. -/
abbrev Cell := List Char

/-- The cell holding the text of a string literal. -/
def chars (s : String) : Cell := s.data

/-- Whitespace characters trimmed from both ends of a cell. -/
def isSpaceChar (c : Char) : Bool := c == ' ' || c == '\t' || c == '\r' || c == '\n'

/-- Trim whitespace from both ends of a cell. -/
def trimCell (l : Cell) : Cell :=
  ((l.dropWhile isSpaceChar).reverse.dropWhile isSpaceChar).reverse

/-- Split a cell at every occurrence of `sep` (the pieces never contain `sep`). -/
def splitCell (sep : Char) : Cell → List Cell
  | [] => [[]]
  | c :: t =>
    let r := splitCell sep t
    if c == sep then [] :: r
    else
      match r with
      | [] => [[c]]
      | h :: t2 => (c :: h) :: t2

/-- Accumulating base-10 digit reader; `none` on the first non-digit. -/
def digitsToNatGo : Cell → Nat → Option Nat
  | [], acc => some acc
  | c :: t, acc =>
    if c.isDigit then digitsToNatGo t (acc * 10 + (c.toNat - '0'.toNat)) else none

/-- Read a nonempty all-digit cell as a natural number. -/
def digitsToNat? (l : Cell) : Option Nat :=
  if l = [] then none else digitsToNatGo l 0

/-- Modelled from the spec: numeric normalization strips currency symbols,
thousands separators, percent signs and inner spaces before parsing
(`%` keeps the value on a 0-100 scale). -/
def stripSymbols (l : Cell) : Cell :=
  l.filter (fun c => !(c == '$' || c == ',' || c == '%' || c == ' '))

/-- Parse an unsigned decimal numeral `digits[.digits]` as a rational. -/
def parseUnsigned (l : Cell) : Option ℚ :=
  match splitCell '.' l with
  | [w] => (digitsToNat? w).map (fun n => (n : ℚ))
  | [w, f] =>
    match digitsToNat? w, digitsToNat? f with
    | some n, some fr => some ((n : ℚ) + (fr : ℚ) / ((10 : ℚ) ^ f.length))
    | _, _ => none
  | _ => none

/-- Parse an optionally negated decimal numeral as a rational. -/
def parseDecimal : Cell → Option ℚ
  | '-' :: t => (parseUnsigned t).map (fun q => -q)
  | l => parseUnsigned l

/-- The empty-cell and spreadsheet-error sentinels that soft-degrade a field. -/
def softSentinel (t : Cell) : Bool :=
  t == [] || t == chars "#N/A" || t == chars "#VALUE!"

/-- Modelled from the spec: a soft defect (blank cell, `#N/A`, `#VALUE!`, or a
value still unparseable after stripping symbols) becomes `null` for that field
and yields a warning; a clean cell parses to its numeric value with no
warning. -/
def parseNumericCell (cell : Cell) : Option ℚ × List String :=
  let t := trimCell cell
  if softSentinel t then (none, ["missing value"])
  else
    match parseDecimal (stripSymbols t) with
    | some v => (some v, [])
    | none => (none, ["unparseable numeric value"])

/-- Modelled from the spec: the Week column parses as
month/day/4-digit-year into a calendar date (its rata-die number). -/
def parseWeekDate (cell : Cell) : Option Int :=
  match splitCell '/' (trimCell cell) with
  | [ms, ds, ys] =>
    match digitsToNat? ms, digitsToNat? ds, digitsToNat? ys with
    | some m, some d, some y =>
      if ys.length = 4 ∧ 1 ≤ m ∧ m ≤ 12 ∧ 1 ≤ d ∧ d ≤ daysInMonth y m then
        some (rataDie y m d)
      else none
    | _, _, _ => none
  | _ => none


/-! ## Data model

`WeeklyRecord` is one row per calendar week, keyed by `weekStart`; any numeric
field may be `null` (`Option ℚ` here), never silently `0`. -/

/-- One validated weekly row (spec §3); field order follows the fixed
15-column upload schema. -/
structure WeeklyRecord where
  weekStart : Int
  overdueGmv : Option ℚ
  collectedGmv : Option ℚ
  collectedInvoices : Option ℚ
  dso : Option ℚ
  weightedAvgDaysOverdue : Option ℚ
  weightedAvgDaysLate : Option ℚ
  due0to10 : Option ℚ
  due11to30 : Option ℚ
  due31to60 : Option ℚ
  due61to90 : Option ℚ
  due90plus : Option ℚ
  creditSalesPercent : Option ℚ
  cei : Option ℚ
  arTurnoverRatio : Option ℚ
  deriving DecidableEq, Repr

/-- The 9 tracked metrics of the Metrics Engine (spec §4.3). -/
inductive Metric where
  | overdueGmv | collectedGmv | collectedInvoices | dso
  | weightedAvgDaysOverdue | weightedAvgDaysLate
  | creditSalesPercent | cei | arTurnoverRatio
  deriving DecidableEq, Repr

/-- The record field carrying a tracked metric. -/
def Metric.get : Metric → WeeklyRecord → Option ℚ
  | .overdueGmv, r => r.overdueGmv
  | .collectedGmv, r => r.collectedGmv
  | .collectedInvoices, r => r.collectedInvoices
  | .dso, r => r.dso
  | .weightedAvgDaysOverdue, r => r.weightedAvgDaysOverdue
  | .weightedAvgDaysLate, r => r.weightedAvgDaysLate
  | .creditSalesPercent, r => r.creditSalesPercent
  | .cei, r => r.cei
  | .arTurnoverRatio, r => r.arTurnoverRatio

/-! ## Weekly Record Store

Keyed, ordered persistence with whole-row upsert semantics (spec §4.2). -/

/-- The Weekly Record Store: records kept in ascending `weekStart` order. -/
abbrev Store := List WeeklyRecord

/-- Point lookup by `weekStart`. -/
def lookup (s : Store) (w : Int) : Option WeeklyRecord :=
  s.find? (fun r => r.weekStart == w)

/-- Modelled from the spec: the upsert contract of the Weekly Record Store —
given a validated record, a record with the same `weekStart` is replaced in
full (never merged field-by-field); otherwise the record is inserted at its
ordered position. -/
def upsert (r : WeeklyRecord) : Store → Store
  | [] => [r]
  | x :: xs =>
    if r.weekStart < x.weekStart then r :: x :: xs
    else if r.weekStart = x.weekStart then r :: xs
    else x :: upsert r xs

/-- Modelled from the spec: a validated batch is applied record by record. -/
def applyBatch (s : Store) (l : List WeeklyRecord) : Store :=
  l.foldl (fun st r => upsert r st) s

/-- Store invariant (spec §3): strictly ascending `weekStart`, hence at most
one record per week. -/
def SortedByWeek (s : Store) : Prop :=
  s.Pairwise (fun a b => a.weekStart < b.weekStart)

instance (s : Store) : Decidable (SortedByWeek s) :=
  inferInstanceAs (Decidable (List.Pairwise _ s))

/-! ## Parser/Validator

Raw rows (each a list of cells, header removed) become typed weekly records.
Structural defects fail the batch; soft defects only degrade fields. -/

/-- Modelled from the spec: build the typed weekly record of a structurally
valid 15-column row, soft-degrading defective numeric cells to `null` and
collecting their warnings. -/
def parseRecord (w : Int) : List Cell → WeeklyRecord × List String
  | [_, c1, c2, c3, c4, c5, c6, c7, c8, c9, c10, c11, c12, c13, c14] =>
    let p1 := parseNumericCell c1
    let p2 := parseNumericCell c2
    let p3 := parseNumericCell c3
    let p4 := parseNumericCell c4
    let p5 := parseNumericCell c5
    let p6 := parseNumericCell c6
    let p7 := parseNumericCell c7
    let p8 := parseNumericCell c8
    let p9 := parseNumericCell c9
    let p10 := parseNumericCell c10
    let p11 := parseNumericCell c11
    let p12 := parseNumericCell c12
    let p13 := parseNumericCell c13
    let p14 := parseNumericCell c14
    (⟨w, p1.1, p2.1, p3.1, p4.1, p5.1, p6.1, p7.1, p8.1, p9.1, p10.1,
        p11.1, p12.1, p13.1, p14.1⟩,
      p1.2 ++ p2.2 ++ p3.2 ++ p4.2 ++ p5.2 ++ p6.2 ++ p7.2 ++ p8.2 ++ p9.2
        ++ p10.2 ++ p11.2 ++ p12.2 ++ p13.2 ++ p14.2)
  | _ =>
    (⟨w, none, none, none, none, none, none, none, none, none, none, none,
        none, none, none⟩, [])

/-- The resolved `weekStart` of a row; `none` marks a structural defect
(wrong column count or unparseable week date). -/
def rowWeek (cells : List Cell) : Option Int :=
  if cells.length = 15 then parseWeekDate (cells.headD []) else none

/-- Parser/Validator contract record (spec §4.1). -/
structure ParseResult where
  records : List WeeklyRecord
  successCount : Nat
  skipCount : Nat
  warnings : List String
  errors : List String
  deriving DecidableEq, Repr

/-- Modelled from the spec: row-by-row validation; a structural defect
(wrong column count, unparseable week date, two rows resolving to the same
`weekStart` within one file) drops the row and reports an error counted in
`skipCount`; a structurally valid row always yields a record, with soft
defects degraded to `null` fields plus warnings. -/
def parseCsvGo : List (List Cell) → List Int → ParseResult
  | [], _ => ⟨[], 0, 0, [], []⟩
  | c :: cs, seen =>
    match rowWeek c with
    | none =>
      let r := parseCsvGo cs seen
      ⟨r.records, r.successCount, r.skipCount + 1, r.warnings,
        "structural: bad column count or week date" :: r.errors⟩
    | some w =>
      if w ∈ seen then
        let r := parseCsvGo cs seen
        ⟨r.records, r.successCount, r.skipCount + 1, r.warnings,
          "structural: duplicate week" :: r.errors⟩
      else
        let p := parseRecord w c
        let r := parseCsvGo cs (w :: seen)
        ⟨p.1 :: r.records, r.successCount + 1, r.skipCount,
          p.2 ++ r.warnings, r.errors⟩

/-- Parse a whole upload (header row already removed). -/
def parseCsv (rows : List (List Cell)) : ParseResult := parseCsvGo rows []

/-- Modelled from the spec: an upload is treated as successful only when zero
structural errors occurred, and only then is it persisted, as one atomic
batch upsert; otherwise the Store is left unchanged. -/
def uploadCsv (s : Store) (rows : List (List Cell)) : Store :=
  let pr := parseCsv rows
  if pr.errors = [] then applyBatch s pr.records else s

/-- A structural defect in an upload batch: some row with a wrong column
count or an unparseable week date, or two rows resolving to the same
`weekStart`. -/
def structuralDefect (rows : List (List Cell)) : Prop :=
  (∃ c ∈ rows, rowWeek c = none) ∨ ¬ (rows.filterMap rowWeek).Nodup

instance (rows : List (List Cell)) : Decidable (structuralDefect rows) := by
  unfold structuralDefect
  infer_instance

/-! ## Metrics Engine -/

/-- Week-over-week part of a metric snapshot, as every page types it. -/
structure WeekOverWeek where
  absolute : Option ℚ
  percentage : Option ℚ
  deriving DecidableEq, Repr

/-- Trailing-averages part of a metric snapshot, as every page types it. -/
structure TrailingAverages where
  threeMonth : Option ℚ
  sixMonth : Option ℚ
  twelveMonth : Option ℚ
  deriving DecidableEq, Repr

/-- The derived, per-metric snapshot (`MetricData` in the pages,
`MetricSnapshot` in spec §3). -/
structure MetricData where
  current : Option ℚ
  weekOverWeek : WeekOverWeek
  trailingAverages : TrailingAverages
  deriving DecidableEq, Repr

/-- The engine's accumulation loop over a window: running sum and count of
the non-null samples (nulls contribute to neither). -/
def sumCount : List (Option ℚ) → ℚ × Nat → ℚ × Nat
  | [], acc => acc
  | some x :: t, acc => sumCount t (acc.1 + x, acc.2 + 1)
  | none :: t, acc => sumCount t acc

/-- Modelled from the spec: the latest `k` distinct stored weeks at or before
the as-of week, ascending (the Store invariant keeps `s` ascending). -/
def windowRecords (s : Store) (asOf : Int) (k : Nat) : List WeeklyRecord :=
  let past := s.filter (fun r => decide (r.weekStart ≤ asOf))
  past.drop (past.length - k)

/-- Modelled from the spec: trailing average of a metric over the trailing
`k` stored weekly records ending at the as-of week, computed by the engine's
sum/count loop; `null` when the count is zero. -/
def trailingAverage (s : Store) (asOf : Int) (k : Nat) (m : Metric) : Option ℚ :=
  let p := sumCount ((windowRecords s asOf k).map m.get) (0, 0)
  if p.2 = 0 then none else some (p.1 / (p.2 : ℚ))

/-- Modelled from the spec: `weekOverWeek.absolute` = current − value at
(current week − 7 days); `null` if either side is `null` or that prior week
has no stored record (no interpolation across gaps). -/
def wowAbsolute (s : Store) (asOf : Int) (m : Metric) : Option ℚ :=
  match (lookup s asOf).bind m.get, (lookup s (asOf - 7)).bind m.get with
  | some a, some b => some (a - b)
  | _, _ => none

/-- Modelled from the spec: `weekOverWeek.percentage` = absolute / |previous|
× 100; `null` whenever the previous value is `null` or exactly `0`
(divide-by-zero guard). -/
def wowPercentage (s : Store) (asOf : Int) (m : Metric) : Option ℚ :=
  match wowAbsolute s asOf m, (lookup s (asOf - 7)).bind m.get with
  | some a, some p => if p = 0 then none else some (a / |p| * 100)
  | _, _ => none

/-- Modelled from the spec: the on-demand per-metric snapshot of the Metrics
Engine for a resolved current week. -/
def computeMetric (s : Store) (asOf : Int) (m : Metric) : MetricData :=
  { current := (lookup s asOf).bind m.get
    weekOverWeek := ⟨wowAbsolute s asOf m, wowPercentage s asOf m⟩
    trailingAverages :=
      ⟨trailingAverage s asOf 13 m, trailingAverage s asOf 26 m,
        trailingAverage s asOf 52 m⟩ }

/-- The spec's wording for a trailing average: the arithmetic mean of the
non-null samples, `null` exactly when there are none. -/
def meanOfNonNull (vals : List (Option ℚ)) : Option ℚ :=
  let xs := vals.filterMap id
  if xs = [] then none else some (xs.sum / (xs.length : ℚ))

/-! ## Historical Aggregator -/

/-- Modelled from the spec: the single fixed weeks-per-month constant 13/3
(so 3, 6 and 12 months are the 13-, 26- and 52-week windows), applied
identically to the historical range. -/
def weeksForMonths (m : Nat) : Nat := 13 * m / 3

/-- Modelled from the spec: the bounded `months` parameter (1–36). -/
def monthsClamped (m : Nat) : Nat := min (max m 1) 36

/-- Modelled from the spec: the Historical Aggregator — the ascending sparse
series of stored weekly records inside the trailing M-months window ending at
the as-of week; weeks absent from the Store are omitted, never zero-filled. -/
def historicalQuery (s : Store) (months : Nat) (asOf : Int) : List WeeklyRecord :=
  let lo : Int := asOf - 7 * (weeksForMonths (monthsClamped months) : Int)
  s.filter (fun r => decide (lo ≤ r.weekStart ∧ r.weekStart ≤ asOf))

/-! ## Status query -/

/-- The status-query response shape (spec §6). -/
structure StatusResponse where
  lastUploadTimestamp : Option String
  latestDataWeek : Option Int
  totalRecords : Nat
  status : String
  deriving DecidableEq, Repr

/-- Modelled from the spec: the status query for collaborator surfaces. -/
def statusQuery (s : Store) (lastUploadTimestamp : Option String) : StatusResponse :=
  { lastUploadTimestamp := lastUploadTimestamp
    latestDataWeek := (s.map WeeklyRecord.weekStart).max?
    totalRecords := s.length
    status := if s.length = 0 then "empty" else "ready" }

/-- The client-side interface the upload page reads the status response into
(src/ar_dashboard/app/app/dashboard/upload/page.tsx, lines 33-38): it names
the timestamp field `lastUpload` and types `status` as an unconstrained
string. -/
structure DataStatus where
  lastUpload : Option String
  latestDataWeek : Option String
  totalRecords : Nat
  status : String
  deriving DecidableEq, Repr

/-! ## Display layer (embedded from the pages in `src/`) -/

/-- JS truthiness of a nullable numeric value: `null` and `0` are both falsy
in the pages' conditional rendering tests. -/
def jsTruthy : Option ℚ → Bool
  | none => false
  | some x => !(x == 0)

/-- The JS default idiom `value || 0` the pages use on nullable metrics. -/
def jsOrZero (v : Option ℚ) : ℚ := if jsTruthy v then v.getD 0 else 0

/-- Aging-summary currency line (src/unnamed/part_001, lines 338-342):
`value ? formatCurrency(value) : 'N/A'`; number formatting abstracted. -/
def renderAgingCurrency (cur : Option ℚ) : String :=
  if jsTruthy cur then "$" ++ toString (cur.getD 0) else "N/A"

/-- Aging-summary days line (src/unnamed/part_001, lines 343-354):
`value ? value.toFixed(1) + ' days' : 'N/A'`; number formatting abstracted. -/
def renderAgingDays (cur : Option ℚ) : String :=
  if jsTruthy cur then toString (cur.getD 0) ++ " days" else "N/A"

/-- `getAgingHealthScore` (src/unnamed/part_001, lines 153-165): substitutes
0 for each null metric, then applies threshold deductions. -/
def getAgingHealthScore (overdueGmv avgDaysOverdue dso : Option ℚ) : ℚ :=
  let o := jsOrZero overdueGmv
  let a := jsOrZero avgDaysOverdue
  let d := jsOrZero dso
  let score0 : ℚ := 100
  let score1 := if o > 1000000 then score0 - 20 else score0
  let score2 := if a > 30 then score1 - 25 else score1
  let score3 := if d > 45 then score2 - 25 else score2
  max 0 score3

/-- The DSO page's current DSO (src/ar_dashboard/app/app/dashboard/dso/page.tsx,
line 154): `metricsData.metrics.dso.current || 0`. -/
def dsoPageCurrentDSO (cur : Option ℚ) : ℚ := jsOrZero cur

/-- `getDSOStatus` (src/ar_dashboard/app/app/dashboard/dso/page.tsx,
lines 158-163). -/
def getDSOStatus (currentDSO : ℚ) : String :=
  if currentDSO ≤ 30 then "Excellent"
  else if currentDSO ≤ 45 then "Good"
  else if currentDSO ≤ 60 then "Fair"
  else "Poor"

/-! ## Upload-page dropzone gate (embedded from `src/`) -/

/-- Dropzone size limit (src/ar_dashboard/app/app/dashboard/upload/page.tsx,
line 142): 5 MB. -/
def maxUploadBytes : Nat := 5 * 1024 * 1024

/-- A file offered to the upload dropzone. -/
structure BrowserFile where
  name : Cell
  mime : Cell
  size : Nat
  deriving DecidableEq, Repr

/-- Whether a file name carries the `.csv` extension. -/
def endsWithCsv (name : Cell) : Bool :=
  name.reverse.take 4 == (chars ".csv").reverse

/-- The dropzone acceptance test for one file, from the `useDropzone`
configuration (src/ar_dashboard/app/app/dashboard/upload/page.tsx, lines
136-143).  react-dropzone flattens `accept: ... 'text/csv': ... '.csv' ...`
into the accept list `text/csv,.csv` and attr-accept admits a file when ANY
entry matches — its MIME type or its extension (a disjunction, so a `.csv`
file offered with a spreadsheet MIME type still passes); `maxSize` bounds the
size at 5 MB. -/
def dropzoneFileAccepted (f : BrowserFile) : Bool :=
  (f.mime == chars "text/csv" || endsWithCsv f.name)
    && decide (f.size ≤ maxUploadBytes)

/-- `maxFiles: 1` — react-dropzone rejects the whole drop when more files
than `maxFiles` pass the per-file test. -/
def dropzoneAcceptedFiles (dropped : List BrowserFile) : List BrowserFile :=
  let ok := dropped.filter dropzoneFileAccepted
  if ok.length ≤ 1 then ok else []

/-- `onDrop` (src/ar_dashboard/app/app/dashboard/upload/page.tsx, lines
70-96): posts `acceptedFiles[0]` to the ingestion endpoint, or nothing when
there is none. -/
def onDropSentFiles (dropped : List BrowserFile) : List BrowserFile :=
  match dropzoneAcceptedFiles dropped with
  | [] => []
  | f :: _ => [f]

/-! ## Concrete data used to exercise the theorems -/

/-- Stored week 2023-01-02 of the spec's gap scenario. -/
def r0102 : WeeklyRecord :=
  ⟨rataDie 2023 1 2, some 5, some 7, none, some 40, none, none, none, none,
    none, none, none, none, some 90, some 8⟩

/-- Stored week 2023-01-16 of the spec's gap scenario (2023-01-09 absent). -/
def r0116 : WeeklyRecord :=
  ⟨rataDie 2023 1 16, some 6, some 9, none, some 42, none, none, none, none,
    none, none, none, none, some 88, some 7⟩

/-- The spec's gap-scenario Store: weeks 2023-01-02 and 2023-01-16 only. -/
def storeJan : Store := [r0102, r0116]

/-- A 15-column row: a week cell followed by 14 copies of one numeric cell. -/
def sampleRow (w v : String) : List Cell :=
  chars w :: List.replicate 14 (chars v)

/-- A well-formed CSV file as offered to the dropzone. -/
def okCsvFile : BrowserFile := ⟨chars "metrics.csv", chars "text/csv", 1024⟩

/-- A `.csv`-named file offered with the Windows Excel MIME type (how
Windows browsers commonly report CSV files). -/
def xlsCsvFile : BrowserFile :=
  ⟨chars "report.csv", chars "application/vnd.ms-excel", 2048⟩

/-- A 15-column row from its cells (week cell first). -/
def mkRow (e0 e1 e2 e3 e4 e5 e6 e7 e8 e9 e10 e11 e12 e13 e14 : Cell) :
    List Cell :=
  [e0, e1, e2, e3, e4, e5, e6, e7, e8, e9, e10, e11, e12, e13, e14]

/-! ## Store and parser lemmas -/

theorem applyBatch_cons (s : Store) (r : WeeklyRecord) (t : List WeeklyRecord) :
    applyBatch s (r :: t) = applyBatch (upsert r s) t := rfl

theorem mem_upsert {r : WeeklyRecord} {s : Store} :
    ∀ {y : WeeklyRecord}, y ∈ upsert r s → y = r ∨ y ∈ s := by
  induction s with
  | nil =>
    intro y h
    simpa [upsert] using h
  | cons x xs ih =>
    intro y h
    by_cases h1 : r.weekStart < x.weekStart
    · simp only [upsert, if_pos h1, List.mem_cons] at h
      exact h.imp id (fun h' => List.mem_cons.mpr h')
    · by_cases h2 : r.weekStart = x.weekStart
      · simp only [upsert, if_neg h1, if_pos h2, List.mem_cons] at h
        exact h.imp id (List.mem_cons_of_mem x)
      · simp only [upsert, if_neg h1, if_neg h2, List.mem_cons] at h
        rcases h with h | h
        · exact Or.inr (h ▸ List.mem_cons_self x xs)
        · exact (ih h).imp id (List.mem_cons_of_mem x)

theorem lookup_upsert_self (r : WeeklyRecord) (s : Store) :
    lookup (upsert r s) r.weekStart = some r := by
  induction s with
  | nil => simp [upsert, lookup]
  | cons x xs ih =>
    by_cases h1 : r.weekStart < x.weekStart
    · simp [upsert, if_pos h1, lookup]
    · by_cases h2 : r.weekStart = x.weekStart
      · simp [upsert, if_neg h1, if_pos h2, lookup]
      · have hx : (x.weekStart == r.weekStart) = false := by
          simp only [beq_eq_false_iff_ne, ne_eq]
          exact fun hxe => h2 hxe.symm
        simp only [upsert, if_neg h1, if_neg h2, lookup, List.find?_cons, hx]
        exact ih

theorem lookup_upsert_ne (r : WeeklyRecord) (s : Store) (w : Int)
    (h : w ≠ r.weekStart) : lookup (upsert r s) w = lookup s w := by
  have hr : (r.weekStart == w) = false := by
    simp only [beq_eq_false_iff_ne, ne_eq]
    exact fun hre => h hre.symm
  induction s with
  | nil => simp [upsert, lookup, hr]
  | cons x xs ih =>
    by_cases h1 : r.weekStart < x.weekStart
    · simp [upsert, if_pos h1, lookup, List.find?_cons, hr]
    · by_cases h2 : r.weekStart = x.weekStart
      · have hx : (x.weekStart == w) = false := by
          simp only [beq_eq_false_iff_ne, ne_eq]
          exact fun hxe => h (h2 ▸ hxe ▸ rfl)
        simp [upsert, if_neg h1, if_pos h2, lookup, List.find?_cons, hr, hx]
      · simp only [upsert, if_neg h1, if_neg h2, lookup, List.find?_cons] at ih ⊢
        cases hxw : x.weekStart == w with
        | true => rfl
        | false => exact ih

theorem sortedByWeek_upsert {s : Store} (r : WeeklyRecord) :
    SortedByWeek s → SortedByWeek (upsert r s) := by
  induction s with
  | nil =>
    intro _
    simp [upsert, SortedByWeek]
  | cons x xs ih =>
    intro hs
    rw [SortedByWeek, List.pairwise_cons] at hs
    obtain ⟨hx, hxs⟩ := hs
    by_cases h1 : r.weekStart < x.weekStart
    · rw [SortedByWeek]
      simp only [upsert, if_pos h1, List.pairwise_cons]
      refine ⟨?_, ?_, hxs⟩
      · intro y hy
        rcases List.mem_cons.mp hy with hy | hy
        · exact hy ▸ h1
        · exact lt_trans h1 (hx y hy)
      · exact hx
    · by_cases h2 : r.weekStart = x.weekStart
      · rw [SortedByWeek]
        simp only [upsert, if_neg h1, if_pos h2, List.pairwise_cons]
        exact ⟨fun y hy => h2 ▸ hx y hy, hxs⟩
      · rw [SortedByWeek]
        simp only [upsert, if_neg h1, if_neg h2, List.pairwise_cons]
        refine ⟨?_, ih hxs⟩
        intro y hy
        rcases mem_upsert hy with hy' | hy'
        · subst hy'
          omega
        · exact hx y hy'

theorem upsert_of_lookup_eq {r : WeeklyRecord} {s : Store} :
    SortedByWeek s → lookup s r.weekStart = some r → upsert r s = s := by
  induction s with
  | nil =>
    intro _ hl
    simp [lookup] at hl
  | cons x xs ih =>
    intro hs hl
    rw [SortedByWeek, List.pairwise_cons] at hs
    obtain ⟨hx, hxs⟩ := hs
    rw [lookup, List.find?_cons] at hl
    cases hxw : x.weekStart == r.weekStart with
    | true =>
      rw [hxw] at hl
      simp only [cond_true, Option.some.injEq] at hl
      subst hl
      simp [upsert, lt_irrefl]
    | false =>
      rw [hxw] at hl
      simp only [cond_false] at hl
      have hmem : r ∈ xs := List.mem_of_find?_eq_some hl
      have hlt : x.weekStart < r.weekStart := hx r hmem
      have h1 : ¬ r.weekStart < x.weekStart := by omega
      have h2 : ¬ r.weekStart = x.weekStart := by omega
      simp only [upsert, if_neg h1, if_neg h2]
      rw [ih hxs hl]

theorem sortedByWeek_applyBatch {s : Store} (l : List WeeklyRecord)
    (hs : SortedByWeek s) : SortedByWeek (applyBatch s l) := by
  induction l generalizing s with
  | nil => exact hs
  | cons r t ih => exact ih (sortedByWeek_upsert r hs)

theorem lookup_applyBatch_notMem {w : Int} {l : List WeeklyRecord} :
    w ∉ l.map WeeklyRecord.weekStart →
      ∀ s : Store, lookup (applyBatch s l) w = lookup s w := by
  induction l with
  | nil =>
    intro _ _
    rfl
  | cons r t ih =>
    intro h s
    simp only [List.map_cons, List.mem_cons, not_or] at h
    rw [applyBatch_cons, ih h.2, lookup_upsert_ne _ _ _ h.1]

theorem lookup_applyBatch_mem {r : WeeklyRecord} {l : List WeeklyRecord} :
    (l.map WeeklyRecord.weekStart).Nodup → r ∈ l →
      ∀ s : Store, lookup (applyBatch s l) r.weekStart = some r := by
  induction l with
  | nil =>
    intro _ hr
    cases hr
  | cons x t ih =>
    intro hn hr s
    simp only [List.map_cons, List.nodup_cons] at hn
    rcases List.mem_cons.mp hr with hr | hr
    · subst hr
      rw [applyBatch_cons, lookup_applyBatch_notMem hn.1, lookup_upsert_self]
    · exact ih hn.2 hr (upsert x s)

theorem applyBatch_idem {l : List WeeklyRecord} :
    ∀ s : Store, SortedByWeek s → (l.map WeeklyRecord.weekStart).Nodup →
      applyBatch (applyBatch s l) l = applyBatch s l := by
  induction l with
  | nil => intro s _ _; rfl
  | cons r t ih =>
    intro s hs hn
    simp only [List.map_cons, List.nodup_cons] at hn
    have hs' : SortedByWeek (upsert r s) := sortedByWeek_upsert r hs
    have hlk : lookup (applyBatch (upsert r s) t) r.weekStart = some r := by
      rw [lookup_applyBatch_notMem hn.1, lookup_upsert_self]
    have hsB : SortedByWeek (applyBatch (upsert r s) t) :=
      sortedByWeek_applyBatch t hs'
    calc applyBatch (applyBatch s (r :: t)) (r :: t)
        = applyBatch (upsert r (applyBatch (upsert r s) t)) t := rfl
      _ = applyBatch (applyBatch (upsert r s) t) t := by
          rw [upsert_of_lookup_eq hsB hlk]
      _ = applyBatch (upsert r s) t := ih (upsert r s) hs' hn.2
      _ = applyBatch s (r :: t) := rfl

theorem parseRecord_weekStart (w : Int) (c : List Cell) :
    (parseRecord w c).1.weekStart = w := by
  unfold parseRecord
  split <;> rfl

theorem errors_nil_of_good (rows : List (List Cell)) :
    ∀ seen : List Int,
      (∀ c ∈ rows, rowWeek c ≠ none) → (rows.filterMap rowWeek).Nodup →
      (∀ w ∈ rows.filterMap rowWeek, w ∉ seen) →
      (parseCsvGo rows seen).errors = [] := by
  induction rows with
  | nil =>
    intro _ _ _ _
    rfl
  | cons c cs ih =>
    intro seen h1 h2 h3
    rcases hw : rowWeek c with _ | w
    · exact absurd hw (h1 c (List.mem_cons_self c cs))
    · have hfm : (c :: cs).filterMap rowWeek = w :: cs.filterMap rowWeek := by
        simp [List.filterMap_cons, hw]
      have hws : w ∉ seen := h3 w (by rw [hfm]; exact List.mem_cons_self w _)
      rw [hfm, List.nodup_cons] at h2
      simp only [parseCsvGo, hw, if_neg hws]
      apply ih (w :: seen)
      · intro c' hc'
        exact h1 c' (List.mem_cons_of_mem c hc')
      · exact h2.2
      · intro w' hw'
        simp only [List.mem_cons, not_or]
        refine ⟨?_, ?_⟩
        · rintro rfl
          exact h2.1 hw'
        · exact h3 w' (by rw [hfm]; exact List.mem_cons_of_mem w hw')

theorem good_of_errors_nil (rows : List (List Cell)) :
    ∀ seen : List Int, (parseCsvGo rows seen).errors = [] →
      (∀ c ∈ rows, rowWeek c ≠ none) ∧ (rows.filterMap rowWeek).Nodup ∧
      (∀ w ∈ rows.filterMap rowWeek, w ∉ seen) := by
  induction rows with
  | nil =>
    intro seen _
    exact ⟨fun c hc => absurd hc (List.not_mem_nil c), List.nodup_nil,
      fun w hw => absurd hw (List.not_mem_nil w)⟩
  | cons c cs ih =>
    intro seen he
    rcases hw : rowWeek c with _ | w
    · exact absurd he (by simp [parseCsvGo, hw])
    · by_cases hmem : w ∈ seen
      · exact absurd he (by simp [parseCsvGo, hw, hmem])
      · simp only [parseCsvGo, hw, if_neg hmem] at he
        obtain ⟨g1, g2, g3⟩ := ih (w :: seen) he
        have hfm : (c :: cs).filterMap rowWeek = w :: cs.filterMap rowWeek := by
          simp [List.filterMap_cons, hw]
        refine ⟨?_, ?_, ?_⟩
        · intro c' hc'
          rcases List.mem_cons.mp hc' with rfl | hc'
          · simp [hw]
          · exact g1 c' hc'
        · rw [hfm, List.nodup_cons]
          exact ⟨fun hmem' => (g3 w hmem') (List.mem_cons_self w seen), g2⟩
        · intro w' hw'
          rw [hfm] at hw'
          rcases List.mem_cons.mp hw' with rfl | hw'
          · exact hmem
          · exact fun hws => (g3 w' hw') (List.mem_cons_of_mem w hws)

theorem records_map_weekStart (rows : List (List Cell)) :
    ∀ seen : List Int, (parseCsvGo rows seen).errors = [] →
      (parseCsvGo rows seen).records.map WeeklyRecord.weekStart
        = rows.filterMap rowWeek := by
  induction rows with
  | nil =>
    intro _ _
    rfl
  | cons c cs ih =>
    intro seen he
    rcases hw : rowWeek c with _ | w
    · exact absurd he (by simp [parseCsvGo, hw])
    · by_cases hmem : w ∈ seen
      · exact absurd he (by simp [parseCsvGo, hw, hmem])
      · simp only [parseCsvGo, hw, if_neg hmem] at he ⊢
        simp only [List.map_cons, List.filterMap_cons, hw]
        rw [parseRecord_weekStart, ih (w :: seen) he]

theorem parseNumericCell_warn (c : Cell) (h : (parseNumericCell c).1 = none) :
    (parseNumericCell c).2 ≠ [] := by
  unfold parseNumericCell at h ⊢
  by_cases hs : softSentinel (trimCell c)
  · simp [hs]
  · simp only [if_neg hs] at h ⊢
    rcases hp : parseDecimal (stripSymbols (trimCell c)) with _ | v
    · simp [hp]
    · rw [hp] at h
      simp at h

theorem ne_nil_append_left {α : Type} {a b : List α} (h : a ≠ []) :
    a ++ b ≠ [] := by
  intro hc
  exact h (List.append_eq_nil.mp hc).1

theorem ne_nil_append_right {α : Type} {a b : List α} (h : b ≠ []) :
    a ++ b ≠ [] := by
  intro hc
  exact h (List.append_eq_nil.mp hc).2

/-! ## Metrics Engine lemmas -/

theorem sumCount_spec (l : List (Option ℚ)) :
    ∀ a : ℚ × Nat,
      sumCount l a
        = (a.1 + (l.filterMap id).sum, a.2 + (l.filterMap id).length) := by
  induction l with
  | nil =>
    intro a
    simp [sumCount]
  | cons h t ih =>
    intro a
    cases h with
    | none =>
      simp [sumCount, ih, List.filterMap_cons]
    | some x =>
      simp only [sumCount, ih, List.filterMap_cons, id_eq, List.sum_cons,
        List.length_cons, Prod.mk.injEq]
      constructor
      · ring
      · omega

theorem trailingAverage_eq_mean (s : Store) (asOf : Int) (k : Nat) (m : Metric) :
    trailingAverage s asOf k m
      = meanOfNonNull ((windowRecords s asOf k).map m.get) := by
  unfold trailingAverage meanOfNonNull
  rw [sumCount_spec]
  simp only [zero_add]
  rcases h : ((windowRecords s asOf k).map m.get).filterMap id with _ | ⟨x, xs⟩
  · simp [h]
  · simp [h]

theorem filterMap_id_map (l : List WeeklyRecord) (m : Metric) :
    (l.map m.get).filterMap id = l.filterMap m.get := by
  induction l with
  | nil => rfl
  | cons r t ih =>
    rcases h : m.get r with _ | v <;> simp [List.filterMap_cons, h, ih]

theorem mem_windowRecords_of_lookup {s : Store} {asOf : Int} {k : Nat}
    (hs : SortedByWeek s) (hk : 1 ≤ k) {rc : WeeklyRecord}
    (h : lookup s asOf = some rc) : rc ∈ windowRecords s asOf k := by
  have hfind : s.find? (fun r => r.weekStart == asOf) = some rc := h
  have hrcmem : rc ∈ s := List.mem_of_find?_eq_some hfind
  have hrcw : rc.weekStart = asOf := by
    have hb := List.find?_some hfind
    simpa using hb
  have hrcpast : rc ∈ s.filter (fun r => decide (r.weekStart ≤ asOf)) :=
    List.mem_filter.mpr ⟨hrcmem, by simp [hrcw]⟩
  set past := s.filter (fun r => decide (r.weekStart ≤ asOf)) with hpastdef
  have hpast : List.Pairwise (fun a b => a.weekStart < b.weekStart) past :=
    List.Pairwise.sublist (List.filter_sublist s) hs
  show rc ∈ past.drop (past.length - k)
  by_contra hno
  have hsplit : past.take (past.length - k) ++ past.drop (past.length - k)
      = past := List.take_append_drop _ _
  have hmem2 : rc ∈ past.take (past.length - k) := by
    have hm := hrcpast
    rw [← hsplit] at hm
    rcases List.mem_append.mp hm with h' | h'
    · exact h'
    · exact absurd h' hno
  rcases Nat.eq_zero_or_pos (past.length - k) with h0 | hpos
  · rw [h0] at hmem2
    simp at hmem2
  · have hlendrop : (past.drop (past.length - k)).length = k := by
      rw [List.length_drop]
      omega
    obtain ⟨y, hy⟩ : ∃ y, y ∈ past.drop (past.length - k) := by
      rcases hD : past.drop (past.length - k) with _ | ⟨a, t⟩
      · rw [hD] at hlendrop
        simp at hlendrop
        omega
      · exact ⟨a, hD ▸ List.mem_cons_self a t⟩
    have hypast : y ∈ past := List.mem_of_mem_drop hy
    have hyle : y.weekStart ≤ asOf := by
      have := (List.mem_filter.mp hypast).2
      simpa using this
    have hlt : rc.weekStart < y.weekStart := by
      have hp2 : List.Pairwise (fun a b => a.weekStart < b.weekStart)
          (past.take (past.length - k) ++ past.drop (past.length - k)) := by
        rw [hsplit]
        exact hpast
      exact (List.pairwise_append.mp hp2).2.2 rc hmem2 y hy
    omega

/-! ## Claim theorems -/

/-- C1: for every tracked metric and every current week, each trailing
average (threeMonth, sixMonth, twelveMonth) equals the arithmetic mean of the
metric's non-null values over the trailing 13, 26 and 52 stored weekly
records ending at and including the current week; nulls are excluded from
both numerator and denominator (never counted as zero), and the result is
null exactly when zero non-null samples fall in the window. -/
theorem trailing_averages_are_nonnull_means (s : Store) (asOf : Int) (m : Metric) :
    (computeMetric s asOf m).trailingAverages
        = ⟨trailingAverage s asOf 13 m, trailingAverage s asOf 26 m,
            trailingAverage s asOf 52 m⟩
    ∧ (∀ k, trailingAverage s asOf k m
        = meanOfNonNull ((windowRecords s asOf k).map m.get))
    ∧ (∀ k, trailingAverage s asOf k m = none
        ↔ (windowRecords s asOf k).filterMap m.get = [])
    ∧ (∀ k v, trailingAverage s asOf k m = some v →
        v = ((windowRecords s asOf k).filterMap m.get).sum
              / (((windowRecords s asOf k).filterMap m.get).length : ℚ))
    ∧ (∀ k, ∀ r ∈ windowRecords s asOf k, r.weekStart ≤ asOf)
    ∧ (SortedByWeek s → ∀ rc, lookup s asOf = some rc → ∀ k, 1 ≤ k →
        rc ∈ windowRecords s asOf k) := by
  refine ⟨rfl, fun k => trailingAverage_eq_mean s asOf k m, ?_, ?_, ?_, ?_⟩
  · intro k
    rw [trailingAverage_eq_mean]
    simp only [meanOfNonNull, filterMap_id_map]
    by_cases h : (windowRecords s asOf k).filterMap m.get = []
    · simp [h]
    · simp [h]
  · intro k v hv
    rw [trailingAverage_eq_mean] at hv
    simp only [meanOfNonNull, filterMap_id_map] at hv
    by_cases h : (windowRecords s asOf k).filterMap m.get = []
    · rw [if_pos h] at hv
      cases hv
    · rw [if_neg h] at hv
      exact (Option.some.inj hv).symm
  · intro k r hr
    have hr' : r ∈ (s.filter (fun x => decide (x.weekStart ≤ asOf))).drop
        ((s.filter (fun x => decide (x.weekStart ≤ asOf))).length - k) := hr
    have h1 := List.mem_of_mem_drop hr'
    have h2 := (List.mem_filter.mp h1).2
    simpa using h2
  · intro hs rc hrc k hk
    exact mem_windowRecords_of_lookup hs hk hrc

/-- C1 witness: in the gap-scenario Store the current week's record lies in
the 13-week window, so the trailing 3-month average at 2023-01-16 draws on
both stored values. -/
theorem trailing_averages_witness :
    r0116 ∈ windowRecords storeJan (rataDie 2023 1 16) 13 :=
  (trailing_averages_are_nonnull_means storeJan (rataDie 2023 1 16)
      Metric.dso).2.2.2.2.2 (by decide) r0116 (by decide) 13 (by decide)

/-- C2: weekOverWeek.percentage equals weekOverWeek.absolute divided by the
absolute value of the previous week's value, times 100, and is null whenever
the previous value is null or exactly 0; the division is guarded so the
engine never divides by zero (the exact-rational model's counterpart of the
no-NaN/Infinity invariant). -/
theorem wow_percentage_guarded (s : Store) (asOf : Int) (m : Metric) :
    (((lookup s (asOf - 7)).bind m.get = none
        ∨ (lookup s (asOf - 7)).bind m.get = some 0) →
      (computeMetric s asOf m).weekOverWeek.percentage = none)
    ∧ (∀ v, (computeMetric s asOf m).weekOverWeek.percentage = some v →
        ∃ a p, (computeMetric s asOf m).weekOverWeek.absolute = some a
          ∧ (lookup s (asOf - 7)).bind m.get = some p ∧ p ≠ 0
          ∧ v = a / |p| * 100) := by
  have hpc : (computeMetric s asOf m).weekOverWeek.percentage
      = wowPercentage s asOf m := rfl
  have hab : (computeMetric s asOf m).weekOverWeek.absolute
      = wowAbsolute s asOf m := rfl
  constructor
  · intro hprev
    rw [hpc]
    rcases hA : wowAbsolute s asOf m with _ | a
    · rcases hP : (lookup s (asOf - 7)).bind m.get with _ | p <;>
        simp [wowPercentage, hA, hP]
    · rcases hprev with hP | hP <;> simp [wowPercentage, hA, hP]
  · intro v hv
    rw [hpc] at hv
    unfold wowPercentage at hv
    rcases hA : wowAbsolute s asOf m with _ | a <;> rw [hA] at hv
    · rcases hP : (lookup s (asOf - 7)).bind m.get with _ | p <;>
        rw [hP] at hv <;> cases hv
    · rcases hP : (lookup s (asOf - 7)).bind m.get with _ | p <;> rw [hP] at hv
      · cases hv
      · have hv' : (if p = 0 then (none : Option ℚ)
            else some (a / |p| * 100)) = some v := hv
        by_cases hp0 : p = 0
        · rw [if_pos hp0] at hv'
          cases hv'
        · rw [if_neg hp0] at hv'
          exact ⟨a, p, hab ▸ hA, rfl, hp0, (Option.some.inj hv').symm⟩

/-- C2 witness: at 2023-01-16 of the gap-scenario Store the previous week's
value is null, so the percentage is null. -/
theorem wow_percentage_witness :
    (computeMetric storeJan (rataDie 2023 1 16) Metric.dso).weekOverWeek.percentage
      = none :=
  (wow_percentage_guarded storeJan (rataDie 2023 1 16) Metric.dso).1
    (Or.inl (by decide))

/-- C3: weekOverWeek.absolute equals the current week's value minus the value
stored at exactly current week minus 7 days, and is null whenever either
value is null or no record exists at exactly that prior week; in particular,
when no record is stored at current week minus 7 days, both components of
weekOverWeek are null for every metric. -/
theorem wow_absolute_requires_exact_prior_week (s : Store) (asOf : Int) (m : Metric) :
    (∀ a b, (lookup s asOf).bind m.get = some a →
        (lookup s (asOf - 7)).bind m.get = some b →
        (computeMetric s asOf m).weekOverWeek.absolute = some (a - b))
    ∧ (((lookup s asOf).bind m.get = none
        ∨ (lookup s (asOf - 7)).bind m.get = none) →
        (computeMetric s asOf m).weekOverWeek.absolute = none)
    ∧ (lookup s (asOf - 7) = none →
        (computeMetric s asOf m).weekOverWeek.absolute = none
          ∧ (computeMetric s asOf m).weekOverWeek.percentage = none) := by
  have hab : (computeMetric s asOf m).weekOverWeek.absolute
      = wowAbsolute s asOf m := rfl
  have hpc : (computeMetric s asOf m).weekOverWeek.percentage
      = wowPercentage s asOf m := rfl
  refine ⟨?_, ?_, ?_⟩
  · intro a b ha hb
    rw [hab]
    simp [wowAbsolute, ha, hb]
  · intro hor
    rw [hab]
    rcases hor with h0 | h0
    · simp [wowAbsolute, h0]
    · rcases hC : (lookup s asOf).bind m.get with _ | a <;>
        simp [wowAbsolute, hC, h0]
  · intro hnone
    have hbind : (lookup s (asOf - 7)).bind m.get = none := by
      rw [hnone]
      rfl
    have habs : wowAbsolute s asOf m = none := by
      rcases hC : (lookup s asOf).bind m.get with _ | a <;>
        simp [wowAbsolute, hC, hbind]
    refine ⟨hab ▸ habs, ?_⟩
    rw [hpc]
    simp [wowPercentage, habs, hbind]

/-- C3 witness: the gap scenario — the Store holds 2023-01-02 and 2023-01-16
only, so weekOverWeek at 2023-01-16 is null (gap at 2023-01-09). -/
theorem wow_absolute_witness :
    (computeMetric storeJan (rataDie 2023 1 16)
        Metric.overdueGmv).weekOverWeek.absolute = none
      ∧ (computeMetric storeJan (rataDie 2023 1 16)
          Metric.overdueGmv).weekOverWeek.percentage = none :=
  (wow_absolute_requires_exact_prior_week storeJan (rataDie 2023 1 16)
      Metric.overdueGmv).2.2 (by decide)

/-- C4: for every upload batch, if any row has a structural defect (wrong
column count, unparseable week date, or two rows resolving to the same
weekStart within one file) then the whole batch fails and the Store is left
unchanged (zero rows persisted); otherwise all rows apply — a reader never
observes a partially-applied batch. -/
theorem upload_batch_atomicity (s : Store) (rows : List (List Cell)) :
    (structuralDefect rows → uploadCsv s rows = s)
    ∧ (¬ structuralDefect rows →
        (parseCsv rows).errors = []
          ∧ ∀ rec ∈ (parseCsv rows).records,
              lookup (uploadCsv s rows) rec.weekStart = some rec) := by
  constructor
  · intro hd
    have he : ¬ (parseCsv rows).errors = [] := by
      intro he0
      obtain ⟨g1, g2, _⟩ := good_of_errors_nil rows [] he0
      rcases hd with ⟨c, hc, hcn⟩ | hnd
      · exact g1 c hc hcn
      · exact hnd g2
    simp [uploadCsv, if_neg he]
  · intro hnd
    have h1 : ∀ c ∈ rows, rowWeek c ≠ none := by
      intro c hc hcn
      exact hnd (Or.inl ⟨c, hc, hcn⟩)
    have h2 : (rows.filterMap rowWeek).Nodup := by
      by_contra h
      exact hnd (Or.inr h)
    have he : (parseCsv rows).errors = [] :=
      errors_nil_of_good rows [] h1 h2 (fun w hw => List.not_mem_nil w)
    refine ⟨he, ?_⟩
    intro rec hrec
    have hn : ((parseCsv rows).records.map WeeklyRecord.weekStart).Nodup := by
      show ((parseCsvGo rows []).records.map WeeklyRecord.weekStart).Nodup
      rw [records_map_weekStart rows [] he]
      exact h2
    have hup : uploadCsv s rows = applyBatch s (parseCsv rows).records := by
      simp [uploadCsv, if_pos he]
    rw [hup]
    exact lookup_applyBatch_mem hn hrec s

/-- C4 witness: a CSV holding two rows for week 5/15/2023 is rejected
wholesale with a duplicate-week structural defect; zero rows persisted. -/
theorem upload_batch_atomicity_witness :
    uploadCsv storeJan [sampleRow "5/15/2023" "1", sampleRow "5/15/2023" "2"]
      = storeJan :=
  (upload_batch_atomicity storeJan
      [sampleRow "5/15/2023" "1", sampleRow "5/15/2023" "2"]).1 (by decide)

/-- C5: uploading an identical valid CSV twice leaves the Store in the same
final state as uploading it once — upsert replaces an existing record with
the same weekStart in full, so applying the same validated batch a second
time is a no-op on the Store's contents. -/
theorem upload_idempotent (s : Store) (rows : List (List Cell))
    (hs : SortedByWeek s) :
    uploadCsv (uploadCsv s rows) rows = uploadCsv s rows := by
  by_cases he : (parseCsv rows).errors = []
  · have hn : ((parseCsv rows).records.map WeeklyRecord.weekStart).Nodup := by
      show ((parseCsvGo rows []).records.map WeeklyRecord.weekStart).Nodup
      rw [records_map_weekStart rows [] he]
      exact (good_of_errors_nil rows [] he).2.1
    have h1 : uploadCsv s rows = applyBatch s (parseCsv rows).records := by
      simp [uploadCsv, if_pos he]
    have h2 : uploadCsv (applyBatch s (parseCsv rows).records) rows
        = applyBatch (applyBatch s (parseCsv rows).records)
            (parseCsv rows).records := by
      simp [uploadCsv, if_pos he]
    rw [h1, h2]
    exact applyBatch_idem s hs hn
  · have h1 : uploadCsv s rows = s := by
      simp [uploadCsv, if_neg he]
    rw [h1]
    exact h1

/-- C5 witness: uploading one valid row twice onto the gap-scenario Store
equals uploading it once. -/
theorem upload_idempotent_witness :
    uploadCsv (uploadCsv storeJan [sampleRow "5/15/2023" "100"])
        [sampleRow "5/15/2023" "100"]
      = uploadCsv storeJan [sampleRow "5/15/2023" "100"] :=
  upload_idempotent storeJan [sampleRow "5/15/2023" "100"] (by decide)

/-- C6: for every ingested row that is structurally valid, a soft defect in
a numeric cell (blank cell, #N/A, #VALUE!, or a value still unparseable after
stripping currency/percent symbols) makes that field null — never 0 — in the
resulting record, produces a warning, and does not fail the row or the
batch. -/
theorem soft_defect_fields_null_with_warning
    (e0 e1 e2 e3 e4 e5 e6 e7 e8 e9 e10 e11 e12 e13 e14 : Cell) (w : Int)
    (hw : parseWeekDate e0 = some w) :
    (parseCsv [mkRow e0 e1 e2 e3 e4 e5 e6 e7 e8 e9 e10 e11 e12 e13 e14]).errors = []
    ∧ (parseCsv [mkRow e0 e1 e2 e3 e4 e5 e6 e7 e8 e9 e10 e11 e12 e13 e14]).skipCount = 0
    ∧ (parseCsv [mkRow e0 e1 e2 e3 e4 e5 e6 e7 e8 e9 e10 e11 e12 e13 e14]).successCount = 1
    ∧ (parseCsv [mkRow e0 e1 e2 e3 e4 e5 e6 e7 e8 e9 e10 e11 e12 e13 e14]).records
        = [(parseRecord w (mkRow e0 e1 e2 e3 e4 e5 e6 e7 e8 e9 e10 e11 e12 e13 e14)).1]
    ∧ (parseRecord w (mkRow e0 e1 e2 e3 e4 e5 e6 e7 e8 e9 e10 e11 e12 e13 e14)).1.weekStart = w
    ∧ ((parseNumericCell e1).1 = none →
        (parseRecord w (mkRow e0 e1 e2 e3 e4 e5 e6 e7 e8 e9 e10 e11 e12 e13 e14)).1.overdueGmv = none
          ∧ (parseCsv [mkRow e0 e1 e2 e3 e4 e5 e6 e7 e8 e9 e10 e11 e12 e13 e14]).warnings ≠ [])
    ∧ ((parseNumericCell e2).1 = none →
        (parseRecord w (mkRow e0 e1 e2 e3 e4 e5 e6 e7 e8 e9 e10 e11 e12 e13 e14)).1.collectedGmv = none
          ∧ (parseCsv [mkRow e0 e1 e2 e3 e4 e5 e6 e7 e8 e9 e10 e11 e12 e13 e14]).warnings ≠ [])
    ∧ ((parseNumericCell e3).1 = none →
        (parseRecord w (mkRow e0 e1 e2 e3 e4 e5 e6 e7 e8 e9 e10 e11 e12 e13 e14)).1.collectedInvoices = none
          ∧ (parseCsv [mkRow e0 e1 e2 e3 e4 e5 e6 e7 e8 e9 e10 e11 e12 e13 e14]).warnings ≠ [])
    ∧ ((parseNumericCell e4).1 = none →
        (parseRecord w (mkRow e0 e1 e2 e3 e4 e5 e6 e7 e8 e9 e10 e11 e12 e13 e14)).1.dso = none
          ∧ (parseCsv [mkRow e0 e1 e2 e3 e4 e5 e6 e7 e8 e9 e10 e11 e12 e13 e14]).warnings ≠ [])
    ∧ ((parseNumericCell e5).1 = none →
        (parseRecord w (mkRow e0 e1 e2 e3 e4 e5 e6 e7 e8 e9 e10 e11 e12 e13 e14)).1.weightedAvgDaysOverdue = none
          ∧ (parseCsv [mkRow e0 e1 e2 e3 e4 e5 e6 e7 e8 e9 e10 e11 e12 e13 e14]).warnings ≠ [])
    ∧ ((parseNumericCell e6).1 = none →
        (parseRecord w (mkRow e0 e1 e2 e3 e4 e5 e6 e7 e8 e9 e10 e11 e12 e13 e14)).1.weightedAvgDaysLate = none
          ∧ (parseCsv [mkRow e0 e1 e2 e3 e4 e5 e6 e7 e8 e9 e10 e11 e12 e13 e14]).warnings ≠ [])
    ∧ ((parseNumericCell e7).1 = none →
        (parseRecord w (mkRow e0 e1 e2 e3 e4 e5 e6 e7 e8 e9 e10 e11 e12 e13 e14)).1.due0to10 = none
          ∧ (parseCsv [mkRow e0 e1 e2 e3 e4 e5 e6 e7 e8 e9 e10 e11 e12 e13 e14]).warnings ≠ [])
    ∧ ((parseNumericCell e8).1 = none →
        (parseRecord w (mkRow e0 e1 e2 e3 e4 e5 e6 e7 e8 e9 e10 e11 e12 e13 e14)).1.due11to30 = none
          ∧ (parseCsv [mkRow e0 e1 e2 e3 e4 e5 e6 e7 e8 e9 e10 e11 e12 e13 e14]).warnings ≠ [])
    ∧ ((parseNumericCell e9).1 = none →
        (parseRecord w (mkRow e0 e1 e2 e3 e4 e5 e6 e7 e8 e9 e10 e11 e12 e13 e14)).1.due31to60 = none
          ∧ (parseCsv [mkRow e0 e1 e2 e3 e4 e5 e6 e7 e8 e9 e10 e11 e12 e13 e14]).warnings ≠ [])
    ∧ ((parseNumericCell e10).1 = none →
        (parseRecord w (mkRow e0 e1 e2 e3 e4 e5 e6 e7 e8 e9 e10 e11 e12 e13 e14)).1.due61to90 = none
          ∧ (parseCsv [mkRow e0 e1 e2 e3 e4 e5 e6 e7 e8 e9 e10 e11 e12 e13 e14]).warnings ≠ [])
    ∧ ((parseNumericCell e11).1 = none →
        (parseRecord w (mkRow e0 e1 e2 e3 e4 e5 e6 e7 e8 e9 e10 e11 e12 e13 e14)).1.due90plus = none
          ∧ (parseCsv [mkRow e0 e1 e2 e3 e4 e5 e6 e7 e8 e9 e10 e11 e12 e13 e14]).warnings ≠ [])
    ∧ ((parseNumericCell e12).1 = none →
        (parseRecord w (mkRow e0 e1 e2 e3 e4 e5 e6 e7 e8 e9 e10 e11 e12 e13 e14)).1.creditSalesPercent = none
          ∧ (parseCsv [mkRow e0 e1 e2 e3 e4 e5 e6 e7 e8 e9 e10 e11 e12 e13 e14]).warnings ≠ [])
    ∧ ((parseNumericCell e13).1 = none →
        (parseRecord w (mkRow e0 e1 e2 e3 e4 e5 e6 e7 e8 e9 e10 e11 e12 e13 e14)).1.cei = none
          ∧ (parseCsv [mkRow e0 e1 e2 e3 e4 e5 e6 e7 e8 e9 e10 e11 e12 e13 e14]).warnings ≠ [])
    ∧ ((parseNumericCell e14).1 = none →
        (parseRecord w (mkRow e0 e1 e2 e3 e4 e5 e6 e7 e8 e9 e10 e11 e12 e13 e14)).1.arTurnoverRatio = none
          ∧ (parseCsv [mkRow e0 e1 e2 e3 e4 e5 e6 e7 e8 e9 e10 e11 e12 e13 e14]).warnings ≠ [])
    := by
  have hrw : rowWeek (mkRow e0 e1 e2 e3 e4 e5 e6 e7 e8 e9 e10 e11 e12 e13 e14) = some w := by
    simp [rowWeek, mkRow, hw]
  have hshape : parseCsv [mkRow e0 e1 e2 e3 e4 e5 e6 e7 e8 e9 e10 e11 e12 e13 e14]
      = ⟨[(parseRecord w (mkRow e0 e1 e2 e3 e4 e5 e6 e7 e8 e9 e10 e11 e12 e13 e14)).1], 1, 0,
          (parseRecord w (mkRow e0 e1 e2 e3 e4 e5 e6 e7 e8 e9 e10 e11 e12 e13 e14)).2, []⟩ := by
    simp [parseCsv, parseCsvGo, hrw]
  have hwarn : (parseCsv [mkRow e0 e1 e2 e3 e4 e5 e6 e7 e8 e9 e10 e11 e12 e13 e14]).warnings = [] →
      (parseNumericCell e1).2 = []
        ∧ (parseNumericCell e2).2 = []
        ∧ (parseNumericCell e3).2 = []
        ∧ (parseNumericCell e4).2 = []
        ∧ (parseNumericCell e5).2 = []
        ∧ (parseNumericCell e6).2 = []
        ∧ (parseNumericCell e7).2 = []
        ∧ (parseNumericCell e8).2 = []
        ∧ (parseNumericCell e9).2 = []
        ∧ (parseNumericCell e10).2 = []
        ∧ (parseNumericCell e11).2 = []
        ∧ (parseNumericCell e12).2 = []
        ∧ (parseNumericCell e13).2 = []
        ∧ (parseNumericCell e14).2 = [] := by
    intro hnil
    rw [hshape] at hnil
    have hcat : (parseNumericCell e1).2 ++ (parseNumericCell e2).2
        ++ (parseNumericCell e3).2 ++ (parseNumericCell e4).2
        ++ (parseNumericCell e5).2 ++ (parseNumericCell e6).2
        ++ (parseNumericCell e7).2 ++ (parseNumericCell e8).2
        ++ (parseNumericCell e9).2 ++ (parseNumericCell e10).2
        ++ (parseNumericCell e11).2 ++ (parseNumericCell e12).2
        ++ (parseNumericCell e13).2 ++ (parseNumericCell e14).2 = [] := hnil
    simpa [List.append_eq_nil, and_assoc] using hcat
  refine ⟨?_, ?_, ?_, ?_, rfl, ?_, ?_, ?_, ?_, ?_, ?_, ?_, ?_, ?_, ?_, ?_, ?_, ?_, ?_⟩
  · rw [hshape]
  · rw [hshape]
  · rw [hshape]
  · rw [hshape]
  · intro h
    exact ⟨h, fun hnil => parseNumericCell_warn e1 h ((hwarn hnil).1)⟩
  · intro h
    exact ⟨h, fun hnil => parseNumericCell_warn e2 h ((hwarn hnil).2.1)⟩
  · intro h
    exact ⟨h, fun hnil => parseNumericCell_warn e3 h ((hwarn hnil).2.2.1)⟩
  · intro h
    exact ⟨h, fun hnil => parseNumericCell_warn e4 h ((hwarn hnil).2.2.2.1)⟩
  · intro h
    exact ⟨h, fun hnil => parseNumericCell_warn e5 h ((hwarn hnil).2.2.2.2.1)⟩
  · intro h
    exact ⟨h, fun hnil => parseNumericCell_warn e6 h ((hwarn hnil).2.2.2.2.2.1)⟩
  · intro h
    exact ⟨h, fun hnil => parseNumericCell_warn e7 h ((hwarn hnil).2.2.2.2.2.2.1)⟩
  · intro h
    exact ⟨h, fun hnil => parseNumericCell_warn e8 h ((hwarn hnil).2.2.2.2.2.2.2.1)⟩
  · intro h
    exact ⟨h, fun hnil => parseNumericCell_warn e9 h ((hwarn hnil).2.2.2.2.2.2.2.2.1)⟩
  · intro h
    exact ⟨h, fun hnil => parseNumericCell_warn e10 h ((hwarn hnil).2.2.2.2.2.2.2.2.2.1)⟩
  · intro h
    exact ⟨h, fun hnil => parseNumericCell_warn e11 h ((hwarn hnil).2.2.2.2.2.2.2.2.2.2.1)⟩
  · intro h
    exact ⟨h, fun hnil => parseNumericCell_warn e12 h ((hwarn hnil).2.2.2.2.2.2.2.2.2.2.2.1)⟩
  · intro h
    exact ⟨h, fun hnil => parseNumericCell_warn e13 h ((hwarn hnil).2.2.2.2.2.2.2.2.2.2.2.2.1)⟩
  · intro h
    exact ⟨h, fun hnil => parseNumericCell_warn e14 h ((hwarn hnil).2.2.2.2.2.2.2.2.2.2.2.2.2)⟩

/-- C6 witness: a structurally valid row whose Overdue GMV cell is #N/A
yields a record with that field null, a warning, and no batch failure. -/
theorem soft_defect_witness :
    (parseCsv [mkRow (chars "5/15/2023") (chars "#N/A") (chars "1") (chars "1") (chars "1") (chars "1") (chars "1") (chars "1") (chars "1") (chars "1") (chars "1") (chars "1") (chars "1") (chars "1") (chars "1")]).errors = []
    ∧ (parseRecord (rataDie 2023 5 15)
        (mkRow (chars "5/15/2023") (chars "#N/A") (chars "1") (chars "1") (chars "1") (chars "1") (chars "1") (chars "1") (chars "1") (chars "1") (chars "1") (chars "1") (chars "1") (chars "1") (chars "1"))).1.overdueGmv = none
    ∧ (parseCsv [mkRow (chars "5/15/2023") (chars "#N/A") (chars "1") (chars "1") (chars "1") (chars "1") (chars "1") (chars "1") (chars "1") (chars "1") (chars "1") (chars "1") (chars "1") (chars "1") (chars "1")]).warnings ≠ [] := by
  have h := soft_defect_fields_null_with_warning (chars "5/15/2023")
      (chars "#N/A") (chars "1") (chars "1") (chars "1") (chars "1") (chars "1") (chars "1") (chars "1") (chars "1") (chars "1") (chars "1") (chars "1") (chars "1") (chars "1")
      (rataDie 2023 5 15) (by decide)
  exact ⟨h.1, (h.2.2.2.2.2.1 (by decide)).1, (h.2.2.2.2.2.1 (by decide)).2⟩

/-- C7: for every month count within its bound and every as-of week, the
historical query returns the stored weekly records of the trailing window in
strictly ascending weekStart order, containing exactly the weeks stored in
that window — weeks absent from the Store are omitted entirely (sparse
series, never zero-filled). -/
theorem historical_query_sparse_ascending (s : Store) (months : Nat)
    (asOf : Int) (hs : SortedByWeek s) (hm : 1 ≤ months ∧ months ≤ 36) :
    List.Pairwise (fun a b => a.weekStart < b.weekStart)
        (historicalQuery s months asOf)
    ∧ ∀ r, r ∈ historicalQuery s months asOf ↔
        r ∈ s ∧ asOf - 7 * (weeksForMonths months : Int) ≤ r.weekStart
          ∧ r.weekStart ≤ asOf := by
  have hcl : monthsClamped months = months := by
    unfold monthsClamped
    omega
  constructor
  · exact List.Pairwise.sublist (List.filter_sublist s) hs
  · intro r
    unfold historicalQuery
    rw [hcl]
    constructor
    · intro hr
      obtain ⟨h1, h2⟩ := List.mem_filter.mp hr
      simp only [decide_eq_true_eq] at h2
      exact ⟨h1, h2.1, h2.2⟩
    · rintro ⟨h1, h2, h3⟩
      refine List.mem_filter.mpr ⟨h1, ?_⟩
      simp only [decide_eq_true_eq]
      exact ⟨h2, h3⟩

/-- C7 witness: a months=3 query against the gap-scenario Store (2 records in
range) returns exactly those 2 entries. -/
theorem historical_query_witness :
    historicalQuery storeJan 3 (rataDie 2023 1 16) = [r0102, r0116]
    ∧ r0102 ∈ historicalQuery storeJan 3 (rataDie 2023 1 16) := by
  refine ⟨by decide, ?_⟩
  exact ((historical_query_sparse_ascending storeJan 3 (rataDie 2023 1 16)
      (by decide) (by decide)).2 r0102).mpr (by decide)

/-- C8: the status query returns an object with exactly the fields
lastUploadTimestamp, latestDataWeek, totalRecords and status, where status is
either "ready" or "empty" — "empty" exactly for a Store with zero records
(the upload page's client interface, embedded as DataStatus, instead reads a
field named lastUpload and types status as an unconstrained string). -/
theorem status_query_shape (s : Store) (ts : Option String) :
    ((statusQuery s ts).status = "ready" ∨ (statusQuery s ts).status = "empty")
    ∧ ((statusQuery s ts).status = "empty" ↔ s = [])
    ∧ (statusQuery s ts).totalRecords = s.length
    ∧ (statusQuery s ts).lastUploadTimestamp = ts
    ∧ (statusQuery s ts).latestDataWeek
        = (s.map WeeklyRecord.weekStart).max? := by
  by_cases h : s.length = 0
  · have hs : s = [] := List.length_eq_zero.mp h
    subst hs
    simp [statusQuery]
  · have hne : ¬ s = [] := by
      intro h0
      subst h0
      simp at h
    have hstat : (statusQuery s ts).status = "ready" := by
      simp [statusQuery, h]
    refine ⟨Or.inl hstat, ?_, rfl, rfl, rfl⟩
    rw [hstat]
    constructor
    · intro hready
      exact absurd hready (by decide)
    · intro h0
      exact absurd h0 hne

/-- C9: at the display layer a metric whose current value is exactly 0 is
indistinguishable from a null value: the aging summary renders 0 as N/A
exactly as it renders null, the aging health score treats 0 and null alike,
and the DSO page substitutes 0 for a null current DSO before classifying and
displaying it. -/
theorem zero_renders_as_null_at_display :
    renderAgingCurrency (some 0) = "N/A"
    ∧ renderAgingCurrency none = "N/A"
    ∧ renderAgingDays (some 0) = "N/A"
    ∧ renderAgingDays none = "N/A"
    ∧ (∀ a d, getAgingHealthScore (some 0) a d = getAgingHealthScore none a d)
    ∧ (∀ o d, getAgingHealthScore o (some 0) d = getAgingHealthScore o none d)
    ∧ (∀ o a, getAgingHealthScore o a (some 0) = getAgingHealthScore o a none)
    ∧ dsoPageCurrentDSO (some 0) = dsoPageCurrentDSO none
    ∧ getDSOStatus (dsoPageCurrentDSO (some 0))
        = getDSOStatus (dsoPageCurrentDSO none) := by
  have h0 : jsOrZero (some 0) = jsOrZero none := by
    simp [jsOrZero, jsTruthy]
  refine ⟨?_, rfl, ?_, rfl, ?_, ?_, ?_, ?_, ?_⟩
  · simp [renderAgingCurrency, jsTruthy]
  · simp [renderAgingDays, jsTruthy]
  · intro a d
    simp only [getAgingHealthScore, h0]
  · intro o d
    simp only [getAgingHealthScore, h0]
  · intro o a
    simp only [getAgingHealthScore, h0]
  · simp [dsoPageCurrentDSO, h0]
  · simp [dsoPageCurrentDSO, h0]

/-- C10 counterexample: the claim as stated — only files offered as text/csv
with a .csv extension are ever sent — is false of the program: react-dropzone
evaluates the accept rule disjunctively, so a file named report.csv offered
with the MIME type application/vnd.ms-excel is accepted and sent to the
ingestion endpoint. -/
theorem dropzone_gate_counterexample :
    xlsCsvFile ∈ onDropSentFiles [xlsCsvFile]
    ∧ ¬ xlsCsvFile.mime = chars "text/csv" :=
  ⟨by decide, by decide⟩

/-- C10 (amended): the ingestion upload interface accepts at most one file
per upload, only files offered as text/csv or carrying a .csv extension
(react-dropzone's accept rule is a disjunction over MIME type and extension),
and rejects any file larger than 5 * 1024 * 1024 bytes; a file failing these
checks is never sent to the ingestion endpoint. -/
theorem dropzone_gate (dropped : List BrowserFile) :
    (onDropSentFiles dropped).length ≤ 1
    ∧ ∀ f ∈ onDropSentFiles dropped,
        dropzoneFileAccepted f = true
        ∧ (f.mime = chars "text/csv" ∨ endsWithCsv f.name = true)
        ∧ f.size ≤ 5 * 1024 * 1024 := by
  have hmem : ∀ f ∈ onDropSentFiles dropped, dropzoneFileAccepted f = true := by
    intro f hf
    unfold onDropSentFiles at hf
    rcases hD : dropzoneAcceptedFiles dropped with _ | ⟨g, t⟩ <;> rw [hD] at hf
    · cases hf
    · have hfg : f = g := by
        rcases List.mem_cons.mp hf with h | h
        · exact h
        · cases h
      subst hfg
      have hg : f ∈ dropzoneAcceptedFiles dropped := by
        rw [hD]
        exact List.mem_cons_self f t
      have hfl : f ∈ dropped.filter dropzoneFileAccepted := by
        unfold dropzoneAcceptedFiles at hg
        by_cases hok : (dropped.filter dropzoneFileAccepted).length ≤ 1
        · rw [if_pos hok] at hg
          exact hg
        · rw [if_neg hok] at hg
          cases hg
      exact List.of_mem_filter hfl
  constructor
  · unfold onDropSentFiles
    rcases dropzoneAcceptedFiles dropped with _ | ⟨g, t⟩ <;> simp
  · intro f hf
    have h := hmem f hf
    have h' := h
    unfold dropzoneFileAccepted at h'
    simp only [Bool.and_eq_true, Bool.or_eq_true, beq_iff_eq,
      decide_eq_true_eq] at h'
    refine ⟨h, h'.1, ?_⟩
    have h2 := h'.2
    simpa [maxUploadBytes] using h2

/-- C10 witness: a 1 KiB text/csv file named metrics.csv is sent, and having
been sent certifies the size bound. -/
theorem dropzone_gate_witness :
    okCsvFile ∈ onDropSentFiles [okCsvFile]
    ∧ okCsvFile.size ≤ 5 * 1024 * 1024 :=
  ⟨by decide, ((dropzone_gate [okCsvFile]).2 okCsvFile (by decide)).2.2⟩

end ArDash
